import Mathlib

/-!
Shallow embedding of the PDFCon statement-extraction program (`src/app.py`)
and proofs about it.

Modelling conventions:
* A pandas cell is `Cell := Option String`; `none` models NaN/undefined,
  `some s` a string value.  A DataFrame is its ordered list of rows.
* PDF coordinates (`x0`, `top`, the column boundary offsets) are exact
  rationals.  The source's boundary constants have at most three decimal
  digits, so they are representable exactly; they are written in lowest
  terms so that the kernel can evaluate comparisons on them
  (`columnPositions_eq` below restates them in decimal notation).
* Python dicts keyed by row key are modelled as insertion-ordered
  association lists (`RowMap`); the extractor only ever reads them back
  through `sorted(rows.keys())`, which is modelled by `List.insertionSort`.
* Fallible library calls (`page.extract_words()`, `camelot.read_pdf`) are
  modelled as `Except` values; the surrounding `try/except` blocks of the
  source turn an `error` into the documented recovery behaviour.
* `process_pdf` operates on an already-opened document: `none` stands for
  "opening/processing raised" (the outer `except` path), `some pages` for a
  successfully opened document with its per-page data.
* Both length-7 constant lists of the source (`expected_headers` and
  `column_positions`) are reproduced verbatim; the source relies on their
  lengths agreeing, and theorems state that invariant explicitly where
  they need it.
-/

namespace PDFCon

/-- A pandas cell: `none` is NaN/undefined, `some s` a string value. -/
abbrev Cell := Option String

/-- A DataFrame, as its ordered list of rows of cells. -/
abbrev Table := List (List Cell)

/-- A positioned word token of one page, as returned by `page.extract_words()`:
text content, horizontal start offset `x0`, vertical top offset `top`. -/
structure Word where
  text : String
  x0 : ℚ
  top : ℚ

/-- Python's `round(y, -1)` (line 33 of `src/app.py`): round to the nearest
multiple of 10, ties to the even multiple (banker's rounding).  Computed on
`num`/`den` so that the definition evaluates inside the kernel; `n` is
`⌊y / 10⌋` and `a / den` is the remainder `y - 10 * n ∈ [0, 10)`. -/
def rowKey (y : ℚ) : Int :=
  let d : Int := (y.den : Int)
  let n : Int := Int.fdiv y.num (10 * d)
  let a : Int := y.num - 10 * n * d
  10 * (if a < 5 * d then n else if 5 * d < a then n + 1
        else if n % 2 = 0 then n else n + 1)

/-- The column scan of lines 38-41 of `src/app.py`: walk the pairs
`zip(column_positions, column_positions[1:] + [None])` and return the index
of the first pair `(start, end)` with `x0 >= start` and (`end is None` or
`x0 < end`); `i` is the index of the first pair still in play. -/
def findColAux (x0 : ℚ) (ps : List ℚ) (i : Nat) : Option Nat :=
  match ps with
  | [] => none
  | s :: rest =>
    match rest with
    | [] => if s ≤ x0 then some i else none
    | e :: _ => if s ≤ x0 ∧ x0 < e then some i else findColAux x0 rest (i + 1)

/-- Index of the column interval that receives a token at offset `x0`. -/
def findCol (x0 : ℚ) (ps : List ℚ) : Option Nat :=
  findColAux x0 ps 0

/-- Per-row accumulator of the extractor: one token-text bucket per column. -/
abbrev RowCells := List (List String)

/-- The `rows` dict of `extract_page_data_with_pdfplumber`, as an
insertion-ordered association list from row key to its cell buckets. -/
abbrev RowMap := List (Int × RowCells)

/-- Dict lookup: the value stored for key `k`, if any. -/
def lookupRow (rows : RowMap) (k : Int) : Option RowCells :=
  match rows with
  | [] => none
  | (k', v) :: rest => if k' = k then some v else lookupRow rest k

/-- Dict update of an existing key: replace the value stored for `k`. -/
def setRow (rows : RowMap) (k : Int) (v : RowCells) : RowMap :=
  match rows with
  | [] => []
  | (k', v') :: rest =>
    if k' = k then (k', v) :: rest else (k', v') :: setRow rest k v

/-- Python's `rows[row_key][idx].append(text)`: append `t` to the `i`-th bucket. -/
def appendAt (cells : RowCells) (i : Nat) (t : String) : RowCells :=
  cells.set i (cells.getD i [] ++ [t])

/-- One iteration of the token loop (lines 29-41 of `src/app.py`): create the
row bucket for the token's row key if it is new, then append the token's text
to the bucket of the first matching column interval, if any. -/
def insertWord (expected_headers : List String) (column_positions : List ℚ)
    (rows : RowMap) (w : Word) : RowMap :=
  let row_key := rowKey w.top
  let rows1 :=
    match lookupRow rows row_key with
    | some _ => rows
    | none => rows ++ [(row_key, List.replicate expected_headers.length [])]
  match findCol w.x0 column_positions with
  | none => rows1
  | some idx =>
    setRow rows1 row_key (appendAt ((lookupRow rows1 row_key).getD []) idx w.text)

/-- The whole token loop: fold `insertWord` over the page's words. -/
def buildRows (expected_headers : List String) (column_positions : List ℚ)
    (words : List Word) : RowMap :=
  words.foldl (insertWord expected_headers column_positions) []

/-- Python's `" ".join(cell)`. -/
def joinSpace : List String → String
  | [] => ""
  | [s] => s
  | s :: rest => s ++ " " ++ joinSpace rest

/-- Python's `str.strip()`: drop leading and trailing whitespace. -/
def strip (s : String) : String :=
  String.mk (((s.toList.dropWhile Char.isWhitespace).reverse.dropWhile
      Char.isWhitespace).reverse)

/-- The `data_rows` comprehension of lines 43-46 of `src/app.py`: emit the
rows in ascending row-key order, each cell being the space-join of its
bucket, stripped. -/
def pageDataRows (column_positions : List ℚ) (expected_headers : List String)
    (words : List Word) : List (List String) :=
  let rows := buildRows expected_headers column_positions words
  (List.insertionSort (· ≤ ·) (rows.map (·.1))).map
    (fun k => ((lookupRow rows k).getD []).map (fun cell => strip (joinSpace cell)))

/-- Does the record's first column value exactly equal the schema's first
column name?  (`df.iloc[:, 0] == expected_headers[0]`, line 15; NaN never
compares equal to a string.) -/
def firstCellMatches (r : List Cell) (expected_headers : List String) : Bool :=
  match expected_headers, r with
  | h :: _, some s :: _ => s == h
  | _, _ => false

/-- The function `clean_dataframe` (lines 9-16 of `src/app.py`): an empty input yields an
empty frame; otherwise drop the rows whose first column equals the first
expected header, then `dropna(how='all')` (drop the rows all of whose cells
are NaN).  `reset_index(drop=True)` is the identity on the row list. -/
def clean_dataframe (df : Table) (expected_headers : List String) : Table :=
  if df.isEmpty then []
  else (df.filter fun r => !(firstCellMatches r expected_headers)).filter
      fun r => r.any fun c => c.isSome

/-- The function `extract_page_data_with_pdfplumber` (lines 19-52 of `src/app.py`) on the
word list of a page: `None` when `data_rows` is empty, otherwise the cleaned
DataFrame of the reconstructed rows (whose cells are all strings). -/
def extractPage (column_positions : List ℚ) (expected_headers : List String)
    (words : List Word) : Option Table :=
  let data_rows := pageDataRows column_positions expected_headers words
  if data_rows.isEmpty then none
  else some (clean_dataframe (data_rows.map fun r => r.map some) expected_headers)

/-- The `expected_headers` constant of `process_pdf` (lines 69-77). -/
def expectedHeaders : List String :=
  ["Receipt No.", "Completion Time", "Details", "Transaction Status",
   "Paid In", "Withdrawn", "Balance"]

/-- The `column_positions` constant of `process_pdf` (line 78):
`[37.5, 85, 194.899, 350, 418.4, 465.2, 521.34]`, written in lowest terms
(see `columnPositions_eq`). -/
def columnPositions : List ℚ :=
  [⟨75, 2, by norm_num, by norm_num⟩, 85,
   ⟨194899, 1000, by norm_num, by norm_num⟩, 350,
   ⟨2092, 5, by norm_num, by norm_num⟩,
   ⟨2326, 5, by norm_num, by norm_num⟩,
   ⟨26067, 50, by norm_num, by norm_num⟩]

/-- Sanity check: the boundary constants are exactly the decimals of line 78. -/
theorem columnPositions_eq :
    columnPositions = [37.5, 85, 194.899, 350, 418.4, 465.2, 521.34] := by
  simp only [columnPositions, List.cons.injEq, and_true]
  norm_num [Rat.mk'_eq_divInt, Rat.divInt_eq_div]

/-- The page-selection argument of `process_pdf`: the sentinel `'all'` or an
explicit list of 1-based page numbers. -/
inductive PageSel where
  | all : PageSel
  | list (pageNumbers : List Int) : PageSel

/-- Page-range resolution (lines 87-96 of `src/app.py`), given the document's
total page count: `range(max(start_page - 1, 0), min(end_page, total_pages))`
when `'all'` comes with both bounds, `range(total_pages)` otherwise, and the
comprehension `[p - 1 for p in pages if 0 < p <= total_pages]` for a list. -/
def resolvePages (pages : PageSel) (start_page end_page : Option Int)
    (total_pages : Nat) : List Nat :=
  match pages with
  | .all =>
    match start_page, end_page with
    | some s, some e =>
      List.range' (max (s - 1) 0).toNat
        (min e (total_pages : Int) - max (s - 1) 0).toNat
    | _, _ => List.range total_pages
  | .list ps =>
    (ps.filter fun p => decide (0 < p) && decide (p ≤ (total_pages : Int))).map
      (fun p => (p - 1).toNat)

/-- One candidate table returned by `camelot.read_pdf`: its column count and
its grid of cells. -/
structure CamelotTable where
  ncols : Nat
  cells : Table

/-- The per-page data exposed by the opened document: the outcome of
`page.extract_words()` and of `camelot.read_pdf` for that page; `error`
models a raised exception. -/
structure PageData where
  words : Except String (List Word)
  camelotTables : Except String (List CamelotTable)

/-- The function `extract_page_data_with_pdfplumber` including its `try/except`: an
exception from `page.extract_words()` is caught and reported as `None`
(lines 54-56 of `src/app.py`). -/
def extractPageSafe (pd : PageData) (column_positions : List ℚ)
    (expected_headers : List String) : Option Table :=
  match pd.words with
  | .error _ => none
  | .ok ws => extractPage column_positions expected_headers ws

/-- The acceptance test of line 111 of `src/app.py`:
`df_pdfplumber is not None and not df_pdfplumber.empty`. -/
def pdfplumberAccepted : Option Table → Bool
  | none => false
  | some df => !df.isEmpty

/-- The Camelot branch (lines 115-125 of `src/app.py`): an exception from
`camelot.read_pdf` is caught by the page-level handler and the page
contributes nothing; otherwise keep each candidate whose column count equals
the header count, clean it, and keep it if non-empty. -/
def camelotFallback (pd : PageData) (expected_headers : List String) :
    List Table :=
  match pd.camelotTables with
  | .error _ => []
  | .ok tables =>
    tables.filterMap fun t =>
      if t.ncols = expected_headers.length then
        let cleaned := clean_dataframe t.cells expected_headers
        if cleaned.isEmpty then none else some cleaned
      else none

/-- The per-page state machine (lines 100-129 of `src/app.py`): accept the
pdfplumber result if it is neither `None` nor empty, otherwise try Camelot.
The list holds the tables the page appends to `all_data`. -/
def processPage (pd : PageData) (column_positions : List ℚ)
    (expected_headers : List String) : List Table :=
  let r := extractPageSafe pd column_positions expected_headers
  if pdfplumberAccepted r then [r.getD []] else camelotFallback pd expected_headers

/-- The `all_data` accumulator after the page loop: each resolved index
contributes its page's tables in order (an out-of-range index raises, is
caught by the page-level handler, and contributes nothing). -/
def gatherTables (pdfPages : List PageData) (column_positions : List ℚ)
    (expected_headers : List String) (idxs : List Nat) : List Table :=
  (idxs.map fun i => (pdfPages[i]?).elim [] fun pd =>
      processPage pd column_positions expected_headers).flatten

/-- The function `process_pdf` (lines 59-142 of `src/app.py`) on an opened document:
`none` for the document argument models the fatal path (opening or
processing raised, caught by the outer `except`, line 140); otherwise
resolve the pages, accumulate the per-page tables, and return `None` when
nothing was accumulated, else the cleaned concatenation. -/
def processPdf (doc : Option (List PageData)) (pages : PageSel)
    (start_page end_page : Option Int) (column_positions : List ℚ)
    (expected_headers : List String) : Option Table :=
  match doc with
  | none => none
  | some pdfPages =>
    let idxs := resolvePages pages start_page end_page pdfPages.length
    let all_data := gatherTables pdfPages column_positions expected_headers idxs
    if all_data.isEmpty then none
    else some (clean_dataframe all_data.flatten expected_headers)

/-- The spec's description of column membership: `i` is an admissible column
index for offset `x0` when `boundaries[i] <= x0 < boundaries[i+1]`, the last
column's interval having no upper bound. -/
def SpecInterval (column_positions : List ℚ) (x0 : ℚ) (i : Nat) : Prop :=
  i < column_positions.length ∧ column_positions.getD i 0 ≤ x0 ∧
    (i + 1 < column_positions.length → x0 < column_positions.getD (i + 1) 0)

/-- The `(row, column)` bucket of token texts, empty when the row or column
is absent. -/
def bucket (rows : RowMap) (k : Int) (i : Nat) : List String :=
  ((lookupRow rows k).getD []).getD i []

/-- First occurrences of `ks` that are not in `seen`, in encounter order:
the order in which the token loop creates row buckets. -/
def newKeys (seen : List Int) (ks : List Int) : List Int :=
  match ks with
  | [] => []
  | k :: rest =>
    if k ∈ seen then newKeys seen rest else k :: newKeys (seen ++ [k]) rest

/-! ### Association-list lemmas -/

theorem lookupRow_nil (k : Int) : lookupRow [] k = none := rfl

theorem lookupRow_cons (k' : Int) (v : RowCells) (rest : RowMap) (k : Int) :
    lookupRow ((k', v) :: rest) k = if k' = k then some v else lookupRow rest k := rfl

theorem setRow_cons (k0 : Int) (v0 : RowCells) (rest : RowMap) (k : Int)
    (v : RowCells) :
    setRow ((k0, v0) :: rest) k v =
      if k0 = k then (k0, v) :: rest else (k0, v0) :: setRow rest k v := rfl

theorem lookupRow_append (l1 l2 : RowMap) (k : Int) :
    lookupRow (l1 ++ l2) k = (lookupRow l1 k).or (lookupRow l2 k) := by
  induction l1 with
  | nil => simp [lookupRow_nil]
  | cons p rest ih =>
    obtain ⟨k', v⟩ := p
    by_cases h : k' = k <;> simp [lookupRow_cons, h, ih]

theorem lookupRow_setRow_self (rows : RowMap) (k : Int) (v : RowCells) :
    lookupRow (setRow rows k v) k = (lookupRow rows k).map fun _ => v := by
  induction rows with
  | nil => simp [lookupRow_nil, setRow]
  | cons p rest ih =>
    obtain ⟨k', v'⟩ := p
    rw [setRow_cons]
    by_cases h : k' = k
    · rw [if_pos h, lookupRow_cons, if_pos h, lookupRow_cons, if_pos h]
      rfl
    · rw [if_neg h, lookupRow_cons, if_neg h, lookupRow_cons, if_neg h, ih]

theorem lookupRow_setRow_ne (rows : RowMap) (k k' : Int) (v : RowCells)
    (h : k' ≠ k) : lookupRow (setRow rows k v) k' = lookupRow rows k' := by
  induction rows with
  | nil => simp [lookupRow_nil, setRow]
  | cons p rest ih =>
    obtain ⟨k0, v0⟩ := p
    rw [setRow_cons]
    by_cases h0 : k0 = k
    · have hne : ¬k0 = k' := fun hh => h (hh.symm.trans h0)
      rw [if_pos h0, lookupRow_cons, lookupRow_cons, if_neg hne, if_neg hne]
    · rw [if_neg h0, lookupRow_cons, lookupRow_cons]
      by_cases h1 : k0 = k'
      · rw [if_pos h1, if_pos h1]
      · rw [if_neg h1, if_neg h1, ih]

theorem lookupRow_eq_none_iff (rows : RowMap) (k : Int) :
    lookupRow rows k = none ↔ k ∉ rows.map (·.1) := by
  induction rows with
  | nil => simp [lookupRow_nil]
  | cons p rest ih =>
    obtain ⟨k', v⟩ := p
    rw [lookupRow_cons]
    by_cases h : k' = k
    · subst h
      simp
    · rw [if_neg h, ih]
      simp only [List.map_cons, List.mem_cons, not_or]
      constructor
      · intro hh
        exact ⟨fun he => h he.symm, hh⟩
      · intro hh
        exact hh.2

theorem lookupRow_mem (rows : RowMap) (k : Int) (v : RowCells)
    (h : lookupRow rows k = some v) : (k, v) ∈ rows := by
  induction rows with
  | nil => simp [lookupRow_nil] at h
  | cons p rest ih =>
    obtain ⟨k', v'⟩ := p
    rw [lookupRow_cons] at h
    by_cases hk : k' = k
    · rw [if_pos hk] at h
      injection h with h2
      subst hk
      subst h2
      exact List.mem_cons_self _ _
    · rw [if_neg hk] at h
      exact List.mem_cons_of_mem _ (ih h)

theorem lookupRow_map_const (l : List Int) (c : RowCells) (k : Int) :
    lookupRow (l.map fun k' => (k', c)) k = if k ∈ l then some c else none := by
  induction l with
  | nil => simp [lookupRow_nil]
  | cons a rest ih =>
    rw [List.map_cons, lookupRow_cons]
    by_cases h : a = k
    · subst h
      simp
    · rw [if_neg h, ih]
      have hka : ¬k = a := fun hh => h hh.symm
      simp [hka]

/-! ### List access lemmas -/

theorem getD_set_self {α : Type} (l : List α) (i : Nat) (a d : α)
    (h : i < l.length) : (l.set i a).getD i d = a := by
  simp [List.getD_eq_getElem?_getD, List.getElem?_set_self h]

theorem getD_set_ne {α : Type} (l : List α) {i j : Nat} (h : i ≠ j) (a d : α) :
    (l.set i a).getD j d = l.getD j d := by
  simp [List.getD_eq_getElem?_getD, List.getElem?_set_ne h]

theorem getD_replicate_self {α : Type} (n j : Nat) (a : α) :
    (List.replicate n a).getD j a = a := by
  rw [List.getD_eq_getElem?_getD, List.getElem?_replicate]
  split <;> simp

/-! ### Characterization of the column scan -/

theorem findColAux_nil (x0 : ℚ) (i : Nat) : findColAux x0 [] i = none := rfl

theorem findColAux_singleton (x0 s : ℚ) (i : Nat) :
    findColAux x0 [s] i = if s ≤ x0 then some i else none := rfl

theorem findColAux_cons_cons (x0 s e : ℚ) (rest' : List ℚ) (i : Nat) :
    findColAux x0 (s :: e :: rest') i =
      if s ≤ x0 ∧ x0 < e then some i else findColAux x0 (e :: rest') (i + 1) := rfl

theorem specInterval_cons_succ (p : ℚ) (l : List ℚ) (x0 : ℚ) (k : Nat) :
    SpecInterval (p :: l) x0 (k + 1) ↔ SpecInterval l x0 k := by
  simp [SpecInterval, Nat.succ_lt_succ_iff]

theorem sorted_head_le (ps : List ℚ) (hs : ps.Chain' (· < ·)) (k : Nat)
    (hk : k < ps.length) : ps.getD 0 0 ≤ ps.getD k 0 := by
  rcases k with _ | k
  · exact le_refl _
  · have hp := (List.chain'_iff_pairwise).1 hs
    rw [List.pairwise_iff_getElem] at hp
    have h0 : 0 < ps.length := by omega
    have hlt := hp 0 (k + 1) h0 hk (by omega)
    rw [List.getD_eq_getElem _ _ h0, List.getD_eq_getElem _ _ hk]
    exact le_of_lt hlt

theorem findColAux_eq_some_iff (x0 : ℚ) :
    ∀ ps : List ℚ, ps.Chain' (· < ·) → ∀ i j : Nat,
      (findColAux x0 ps i = some j ↔ ∃ k, j = i + k ∧ SpecInterval ps x0 k) := by
  intro ps
  induction ps with
  | nil => intro _ i j; simp [findColAux_nil, SpecInterval]
  | cons s rest ih =>
    intro hs i j
    cases rest with
    | nil =>
      rw [findColAux_singleton]
      by_cases h : s ≤ x0
      · rw [if_pos h]
        constructor
        · intro h'
          obtain rfl : i = j := Option.some.inj h'
          exact ⟨0, by omega, by simp [SpecInterval, h]⟩
        · rintro ⟨k, rfl, hk⟩
          have hk0 : k = 0 := by
            have := hk.1
            simp at this
            omega
          subst hk0
          simp
      · rw [if_neg h]
        constructor
        · intro h'; cases h'
        · rintro ⟨k, rfl, hk⟩
          have hk0 : k = 0 := by
            have := hk.1
            simp at this
            omega
          subst hk0
          exact absurd (by simpa using hk.2.1) h
    | cons e rest' =>
      have hse : s < e := (List.chain'_cons.1 hs).1
      have htail : (e :: rest').Chain' (· < ·) := (List.chain'_cons.1 hs).2
      rw [findColAux_cons_cons]
      by_cases hcond : s ≤ x0 ∧ x0 < e
      · rw [if_pos hcond]
        constructor
        · intro h'
          obtain rfl : i = j := Option.some.inj h'
          refine ⟨0, by omega, by simp, by simpa using hcond.1, fun _ => by simpa using hcond.2⟩
        · rintro ⟨k, rfl, hk⟩
          cases k with
          | zero => simp
          | succ k' =>
            exfalso
            have hk' := (specInterval_cons_succ s _ x0 k').1 hk
            have h1 := sorted_head_le _ htail k' hk'.1
            have h2 : e ≤ x0 := le_trans (by simpa using h1) hk'.2.1
            exact absurd hcond.2 (not_lt.2 h2)
      · rw [if_neg hcond, ih htail (i + 1) j]
        constructor
        · rintro ⟨k, rfl, hk⟩
          exact ⟨k + 1, by omega, (specInterval_cons_succ s _ x0 k).2 hk⟩
        · rintro ⟨k, rfl, hk⟩
          cases k with
          | zero =>
            exfalso
            refine hcond ⟨by simpa using hk.2.1, ?_⟩
            have h2 := hk.2.2 (by simp)
            simpa using h2
          | succ k' =>
            exact ⟨k', by omega, (specInterval_cons_succ s _ x0 k').1 hk⟩

theorem findCol_eq_some_iff (x0 : ℚ) (ps : List ℚ) (hs : ps.Chain' (· < ·))
    (j : Nat) : findCol x0 ps = some j ↔ SpecInterval ps x0 j := by
  rw [findCol, findColAux_eq_some_iff x0 ps hs 0 j]
  simp

theorem exists_specInterval (x0 : ℚ) :
    ∀ ps : List ℚ, ps.Chain' (· < ·) → ps ≠ [] → ps.getD 0 0 ≤ x0 →
      ∃ k, SpecInterval ps x0 k := by
  intro ps
  induction ps with
  | nil => intro _ h _; exact absurd rfl h
  | cons s rest ih =>
    intro hs _ hhead
    cases rest with
    | nil =>
      exact ⟨0, by simp, by simpa using hhead, fun h => absurd h (by simp)⟩
    | cons e rest' =>
      by_cases hxe : x0 < e
      · exact ⟨0, by simp, by simpa using hhead, fun _ => by simpa using hxe⟩
      · have htail : (e :: rest').Chain' (· < ·) := (List.chain'_cons.1 hs).2
        obtain ⟨k, hk⟩ := ih htail (by simp) (by simpa using not_lt.1 hxe)
        exact ⟨k + 1, (specInterval_cons_succ s _ x0 k).2 hk⟩

theorem findCol_eq_none_iff (x0 : ℚ) (ps : List ℚ) (hs : ps.Chain' (· < ·))
    (hne : ps ≠ []) : findCol x0 ps = none ↔ x0 < ps.getD 0 0 := by
  constructor
  · intro h
    by_contra hlt
    obtain ⟨k, hk⟩ := exists_specInterval x0 ps hs hne (not_lt.1 hlt)
    have h2 := (findCol_eq_some_iff x0 ps hs k).2 hk
    rw [h] at h2
    cases h2
  · intro hlt
    cases hfc : findCol x0 ps with
    | none => rfl
    | some j =>
      exfalso
      have hj := (findCol_eq_some_iff x0 ps hs j).1 hfc
      have h1 := sorted_head_le ps hs j hj.1
      exact absurd (le_trans h1 hj.2.1) (not_le.2 hlt)

theorem findColAux_none_of_lt (x0 : ℚ) :
    ∀ (ps : List ℚ) (i : Nat), (∀ p ∈ ps, x0 < p) → findColAux x0 ps i = none := by
  intro ps
  induction ps with
  | nil => intro i _; rfl
  | cons s rest ih =>
    intro i hall
    cases rest with
    | nil => rw [findColAux_singleton, if_neg (not_le.2 (hall s (by simp)))]
    | cons e rest' =>
      have hns : ¬(s ≤ x0 ∧ x0 < e) :=
        fun h => absurd h.1 (not_le.2 (hall s (by simp)))
      rw [findColAux_cons_cons, if_neg hns]
      exact ih (i + 1) (fun p hp => hall p (by simp [hp]))

/-! ### The effect of one token insertion on the row buckets -/

theorem insertWord_none_existing {expected_headers : List String}
    {column_positions : List ℚ} {rows : RowMap} {w : Word} {v : RowCells}
    (hlk : lookupRow rows (rowKey w.top) = some v)
    (hfc : findCol w.x0 column_positions = none) :
    insertWord expected_headers column_positions rows w = rows := by
  simp only [insertWord, hlk, hfc]

theorem insertWord_none_new {expected_headers : List String}
    {column_positions : List ℚ} {rows : RowMap} {w : Word}
    (hlk : lookupRow rows (rowKey w.top) = none)
    (hfc : findCol w.x0 column_positions = none) :
    insertWord expected_headers column_positions rows w =
      rows ++ [(rowKey w.top, List.replicate expected_headers.length [])] := by
  simp only [insertWord, hlk, hfc]

theorem insertWord_some_existing {expected_headers : List String}
    {column_positions : List ℚ} {rows : RowMap} {w : Word} {v : RowCells}
    {idx : Nat} (hlk : lookupRow rows (rowKey w.top) = some v)
    (hfc : findCol w.x0 column_positions = some idx) :
    insertWord expected_headers column_positions rows w =
      setRow rows (rowKey w.top) (appendAt v idx w.text) := by
  simp only [insertWord, hlk, hfc, Option.getD_some]

theorem insertWord_some_new {expected_headers : List String}
    {column_positions : List ℚ} {rows : RowMap} {w : Word} {idx : Nat}
    (hlk : lookupRow rows (rowKey w.top) = none)
    (hfc : findCol w.x0 column_positions = some idx) :
    insertWord expected_headers column_positions rows w =
      setRow (rows ++ [(rowKey w.top, List.replicate expected_headers.length [])])
        (rowKey w.top)
        (appendAt (List.replicate expected_headers.length []) idx w.text) := by
  have hlk2 : lookupRow
      (rows ++ [(rowKey w.top, List.replicate expected_headers.length [])])
      (rowKey w.top) = some (List.replicate expected_headers.length []) := by
    rw [lookupRow_append, hlk]
    simp [lookupRow_cons]
  simp only [insertWord, hlk, hfc, hlk2, Option.getD_some]

theorem bucket_insertWord_of_none (expected_headers : List String)
    (column_positions : List ℚ) (rows : RowMap) (w : Word)
    (hfc : findCol w.x0 column_positions = none) (k : Int) (j : Nat) :
    bucket (insertWord expected_headers column_positions rows w) k j =
      bucket rows k j := by
  cases hlk : lookupRow rows (rowKey w.top) with
  | some v => rw [insertWord_none_existing hlk hfc]
  | none =>
    rw [insertWord_none_new hlk hfc]
    unfold bucket
    rw [lookupRow_append]
    by_cases hk : rowKey w.top = k
    · subst hk
      rw [hlk]
      simp [lookupRow_cons, getD_replicate_self]
    · have h1 : lookupRow
          [(rowKey w.top, List.replicate expected_headers.length [])] k = none := by
        simp [lookupRow_cons, lookupRow_nil, hk]
      rw [h1, Option.or_none]

theorem bucket_insertWord_self (expected_headers : List String)
    (column_positions : List ℚ) (rows : RowMap) (w : Word) (idx : Nat)
    (hfc : findCol w.x0 column_positions = some idx)
    (hi : idx < expected_headers.length)
    (hwf : ∀ p ∈ rows, (p.2 : RowCells).length = expected_headers.length) :
    bucket (insertWord expected_headers column_positions rows w)
        (rowKey w.top) idx = bucket rows (rowKey w.top) idx ++ [w.text] := by
  cases hlk : lookupRow rows (rowKey w.top) with
  | some v =>
    have hv : v.length = expected_headers.length := hwf _ (lookupRow_mem _ _ _ hlk)
    rw [insertWord_some_existing hlk hfc]
    unfold bucket
    rw [lookupRow_setRow_self, hlk]
    simp only [Option.map_some', Option.getD_some]
    unfold appendAt
    rw [getD_set_self _ _ _ _ (by omega)]
  | none =>
    rw [insertWord_some_new hlk hfc]
    have hlk2 : lookupRow
        (rows ++ [(rowKey w.top, List.replicate expected_headers.length [])])
        (rowKey w.top) = some (List.replicate expected_headers.length []) := by
      rw [lookupRow_append, hlk]
      simp [lookupRow_cons]
    unfold bucket
    rw [lookupRow_setRow_self, hlk2, hlk]
    simp only [Option.map_some', Option.getD_some, Option.getD_none]
    unfold appendAt
    rw [getD_set_self _ _ _ _ (by simp [hi]), getD_replicate_self]
    simp

theorem bucket_insertWord_other (expected_headers : List String)
    (column_positions : List ℚ) (rows : RowMap) (w : Word) (idx : Nat)
    (hfc : findCol w.x0 column_positions = some idx)
    (k : Int) (j : Nat) (hkj : ¬(k = rowKey w.top ∧ j = idx)) :
    bucket (insertWord expected_headers column_positions rows w) k j =
      bucket rows k j := by
  by_cases hk : k = rowKey w.top
  · subst hk
    have hj : j ≠ idx := fun hh => hkj ⟨rfl, hh⟩
    cases hlk : lookupRow rows (rowKey w.top) with
    | some v =>
      rw [insertWord_some_existing hlk hfc]
      unfold bucket
      rw [lookupRow_setRow_self, hlk]
      simp only [Option.map_some', Option.getD_some]
      unfold appendAt
      rw [getD_set_ne _ (fun hh => hj hh.symm)]
    | none =>
      rw [insertWord_some_new hlk hfc]
      have hlk2 : lookupRow
          (rows ++ [(rowKey w.top, List.replicate expected_headers.length [])])
          (rowKey w.top) = some (List.replicate expected_headers.length []) := by
        rw [lookupRow_append, hlk]
        simp [lookupRow_cons]
      unfold bucket
      rw [lookupRow_setRow_self, hlk2, hlk]
      simp only [Option.map_some', Option.getD_some, Option.getD_none]
      unfold appendAt
      rw [getD_set_ne _ (fun hh => hj hh.symm), getD_replicate_self]
      simp
  · cases hlk : lookupRow rows (rowKey w.top) with
    | some v =>
      rw [insertWord_some_existing hlk hfc]
      unfold bucket
      rw [lookupRow_setRow_ne _ _ _ _ hk]
    | none =>
      rw [insertWord_some_new hlk hfc]
      unfold bucket
      rw [lookupRow_setRow_ne _ _ _ _ hk, lookupRow_append]
      have hne : ¬rowKey w.top = k := fun hh => hk hh.symm
      have h1 : lookupRow
          [(rowKey w.top, List.replicate expected_headers.length [])] k = none := by
        simp [lookupRow_cons, lookupRow_nil, hne]
      rw [h1, Option.or_none]

/-! ### The row map built from tokens that match no column -/

theorem newKeys_mem :
    ∀ (ks seen : List Int) (x : Int),
      (x ∈ newKeys seen ks ↔ x ∈ ks ∧ x ∉ seen) := by
  intro ks
  induction ks with
  | nil => intro seen x; simp [newKeys]
  | cons k rest ih =>
    intro seen x
    by_cases hk : k ∈ seen
    · rw [newKeys, if_pos hk, ih]
      constructor
      · rintro ⟨hx, hs⟩
        exact ⟨List.mem_cons_of_mem _ hx, hs⟩
      · rintro ⟨hx, hs⟩
        rcases List.mem_cons.1 hx with rfl | hx2
        · exact absurd hk hs
        · exact ⟨hx2, hs⟩
    · rw [newKeys, if_neg hk]
      constructor
      · intro hx
        rcases List.mem_cons.1 hx with rfl | hx2
        · exact ⟨List.mem_cons_self _ _, hk⟩
        · obtain ⟨h1, h2⟩ := (ih _ _).1 hx2
          simp only [List.mem_append, List.mem_singleton, not_or] at h2
          exact ⟨List.mem_cons_of_mem _ h1, h2.1⟩
      · rintro ⟨hx, hs⟩
        rcases List.mem_cons.1 hx with rfl | hx2
        · exact List.mem_cons_self _ _
        · by_cases hxk : x = k
          · subst hxk
            exact List.mem_cons_self _ _
          · refine List.mem_cons_of_mem _ ((ih _ _).2 ⟨hx2, ?_⟩)
            simp [hs, hxk]

theorem newKeys_nodup : ∀ (ks seen : List Int), (newKeys seen ks).Nodup := by
  intro ks
  induction ks with
  | nil => intro seen; simp [newKeys]
  | cons k rest ih =>
    intro seen
    by_cases hk : k ∈ seen
    · rw [newKeys, if_pos hk]
      exact ih seen
    · rw [newKeys, if_neg hk]
      refine List.nodup_cons.2 ⟨?_, ih _⟩
      intro hmem
      have h2 := ((newKeys_mem _ _ _).1 hmem).2
      simp at h2

theorem newKeys_nil_length (ks : List Int) :
    (newKeys [] ks).length = ks.dedup.length := by
  have h1 : (newKeys [] ks).Nodup := newKeys_nodup ks []
  have h2 : ks.dedup.Nodup := ks.nodup_dedup
  have hperm : List.Perm (newKeys [] ks) ks.dedup := by
    refine List.perm_of_nodup_nodup_toFinset_eq h1 h2 ?_
    ext x
    simp [List.mem_toFinset, newKeys_mem, List.mem_dedup]
  exact hperm.length_eq

theorem buildRows_all_none (expected_headers : List String)
    (column_positions : List ℚ) :
    ∀ (words : List Word) (acc : RowMap),
      (∀ w ∈ words, findCol w.x0 column_positions = none) →
      words.foldl (insertWord expected_headers column_positions) acc =
        acc ++ (newKeys (acc.map (·.1)) (words.map fun w => rowKey w.top)).map
            (fun k => (k, List.replicate expected_headers.length [])) := by
  intro words
  induction words with
  | nil => intro acc _; simp [newKeys]
  | cons w ws ih =>
    intro acc hall
    have hw := hall w (List.mem_cons_self _ _)
    have htl : ∀ w' ∈ ws, findCol w'.x0 column_positions = none :=
      fun w' hw' => hall w' (List.mem_cons_of_mem _ hw')
    simp only [List.foldl_cons, List.map_cons, newKeys]
    by_cases hmem : rowKey w.top ∈ acc.map (·.1)
    · have hlk : lookupRow acc (rowKey w.top) ≠ none :=
        fun hh => (lookupRow_eq_none_iff _ _).1 hh hmem
      obtain ⟨v, hv⟩ := Option.ne_none_iff_exists'.1 hlk
      rw [insertWord_none_existing hv hw, if_pos hmem]
      exact ih acc htl
    · have hlk : lookupRow acc (rowKey w.top) = none :=
        (lookupRow_eq_none_iff _ _).2 hmem
      rw [insertWord_none_new hlk hw, if_neg hmem]
      rw [ih _ htl]
      simp [List.map_append, List.append_assoc]

/-! ### Further shared lemmas -/

theorem columnPositions_sorted : List.Chain' (· < ·) columnPositions := by
  simp only [columnPositions, List.chain'_cons, List.chain'_singleton, and_true]
  exact ⟨by decide, by decide, by decide, by decide, by decide, by decide⟩

theorem filter_pair_idem {α : Type} (p q : α → Bool) (l : List α) :
    (((l.filter p).filter q).filter p).filter q = (l.filter p).filter q := by
  simp only [List.filter_filter]
  apply List.filter_congr
  intro a _
  cases hp : p a <;> cases hq : q a <;> simp [hp, hq]

/-! ### The claims -/

/-- C1: for every word token, the column scan assigns the token's text to at
most one column — the unique index `i` with
`column_positions[i] <= x0 < column_positions[i+1]` (no upper bound for the
last column) — appending the text at the end of that `(RowKey, column)`
bucket and touching no other bucket; a token whose `x0` is strictly below
the first boundary changes no bucket at all and reports no error (the
insertion is total). -/
theorem C1_token_binning (column_positions : List ℚ)
    (expected_headers : List String)
    (hsort : column_positions.Chain' (· < ·))
    (hlen : column_positions.length = expected_headers.length)
    (rows : RowMap)
    (hwf : ∀ p ∈ rows, (p.2 : RowCells).length = expected_headers.length)
    (w : Word) :
    (∀ i, findCol w.x0 column_positions = some i ↔
        SpecInterval column_positions w.x0 i)
    ∧ (∀ i j, SpecInterval column_positions w.x0 i →
        SpecInterval column_positions w.x0 j → i = j)
    ∧ (∀ i, SpecInterval column_positions w.x0 i →
        bucket (insertWord expected_headers column_positions rows w)
            (rowKey w.top) i = bucket rows (rowKey w.top) i ++ [w.text]
        ∧ ∀ k j, ¬(k = rowKey w.top ∧ j = i) →
            bucket (insertWord expected_headers column_positions rows w) k j =
              bucket rows k j)
    ∧ (column_positions ≠ [] → w.x0 < column_positions.getD 0 0 →
        findCol w.x0 column_positions = none
        ∧ ∀ k j,
            bucket (insertWord expected_headers column_positions rows w) k j =
              bucket rows k j) := by
  have hiff := fun i => findCol_eq_some_iff w.x0 column_positions hsort i
  refine ⟨hiff, ?_, ?_, ?_⟩
  · intro i j hi hj
    have h1 := (hiff i).2 hi
    have h2 := (hiff j).2 hj
    exact Option.some.inj (h1.symm.trans h2)
  · intro i hi
    have hfc := (hiff i).2 hi
    have hilen : i < expected_headers.length := hlen ▸ hi.1
    exact ⟨bucket_insertWord_self _ _ _ _ _ hfc hilen hwf,
           fun k j hkj => bucket_insertWord_other _ _ _ _ _ hfc k j hkj⟩
  · intro hne hlt
    have hfc := (findCol_eq_none_iff w.x0 column_positions hsort hne).2 hlt
    exact ⟨hfc, fun k j => bucket_insertWord_of_none _ _ _ _ hfc k j⟩

/-- Witness for C1 at the source's schema: the token `"a"` at `x0 = 40`,
`top = 100` lands in column 0 of row bucket `rowKey 100`. -/
theorem C1_token_binning_witness :
    bucket (insertWord expectedHeaders columnPositions []
        { text := "a", x0 := 40, top := 100 }) (rowKey 100) 0
      = bucket [] (rowKey 100) 0 ++ ["a"] :=
  ((C1_token_binning columnPositions expectedHeaders columnPositions_sorted
      (by decide) [] (by simp)
      { text := "a", x0 := 40, top := 100 }).2.2.1 0
      ⟨by decide, by decide, fun _ => by decide⟩).1

/-- C2 counterexample: `round(·, -1)` quantizes to the nearest multiple of
10, so tops 100 and 109 do not collapse (keys 100 and 110); a page with
exactly the three tokens at tops 100, 109, 121 reconstructs to 3 rows, not
the 2 rows the claim asserts. -/
theorem C2_counterexample :
    rowKey 100 = 100 ∧ rowKey 109 = 110 ∧ rowKey 100 ≠ rowKey 109 ∧
      (extractPage columnPositions expectedHeaders
        [{ text := "a", x0 := 40, top := 100 },
         { text := "b", x0:= 40, top := 109 },
         { text := "c", x0 := 40, top := 121 }]).map List.length = some 3 ∧
      (extractPage columnPositions expectedHeaders
        [{ text := "a", x0 := 40, top := 100 },
         { text := "b", x0 := 40, top := 109 },
         { text := "c", x0 := 40, top := 121 }]).map List.length ≠ some 2 := by
  exact ⟨by decide, by decide, by decide, by decide, by decide⟩

/-- C2 amended: with round-to-nearest quantization, tokens at tops 100 and
104 collapse into one RowKey (100) while a token at top 121 starts a new row
(key 120), so a page with exactly these three tokens yields exactly 2 rows,
not 3. -/
theorem C2_amended_two_rows :
    rowKey 100 = rowKey 104 ∧ rowKey 121 ≠ rowKey 100 ∧
      (extractPage columnPositions expectedHeaders
        [{ text := "a", x0 := 40, top := 100 },
         { text := "b", x0 := 40, top := 104 },
         { text := "c", x0 := 40, top := 121 }]).map List.length = some 2 := by
  exact ⟨by decide, by decide, by decide⟩

/-- C5 counterexample: a table whose single record consists only of empty
strings survives `clean_dataframe` untouched — `dropna(how='all')` removes
only all-NaN rows, so the returned table has a row all of whose values are
empty. -/
theorem C5_counterexample :
    ∃ r ∈ clean_dataframe [[some "", some ""]] ["A", "B"],
      ∀ c ∈ r, c = none ∨ c = some "" := by
  decide

/-- C5 amended: `clean_dataframe` drops exactly the records all of whose
values are undefined (NaN): every row of the returned table has at least one
defined value.  Rows all of whose values are empty strings are retained. -/
theorem C5_amended_dropna (df : Table) (expected_headers : List String) :
    ∀ r ∈ clean_dataframe df expected_headers, ∃ c ∈ r, c.isSome := by
  intro r hr
  rw [clean_dataframe] at hr
  split at hr
  · simp at hr
  · have h2 := (List.mem_filter.1 hr).2
    obtain ⟨c, hc1, hc2⟩ := List.any_eq_true.1 h2
    exact ⟨c, hc1, hc2⟩

/-- Witness for the amended C5. -/
theorem C5_amended_dropna_witness : ∃ c ∈ [some "x"], c.isSome :=
  C5_amended_dropna [[some "x"]] ["A"] [some "x"] (by decide)

/-- C6: `clean_dataframe` drops a record precisely when its first column
value equals the schema's first column name (or the record is all-NaN); a
record whose value equals the header text only in a non-first column is
never dropped by the header rule. -/
theorem C6_header_drop (df : Table) (h0 : String) (hs : List String)
    (r : List Cell) (hr : r ∈ df) :
    (r.head? = some (some h0) → r ∉ clean_dataframe df (h0 :: hs))
    ∧ (r.head? ≠ some (some h0) → (r.any fun c => c.isSome) →
        r ∈ clean_dataframe df (h0 :: hs))
    ∧ (r.head? ≠ some (some h0) → some h0 ∈ r.drop 1 →
        r ∈ clean_dataframe df (h0 :: hs)) := by
  have hne : ¬df.isEmpty := by
    intro hh
    exact List.ne_nil_of_mem hr (List.isEmpty_iff.1 hh)
  have hkeep : r.head? ≠ some (some h0) → (r.any fun c => c.isSome) = true →
      r ∈ clean_dataframe df (h0 :: hs) := by
    intro hhead hany
    rw [clean_dataframe, if_neg hne]
    refine List.mem_filter.2 ⟨List.mem_filter.2 ⟨hr, ?_⟩, hany⟩
    cases r with
    | nil => simp [firstCellMatches]
    | cons c rest =>
      cases c with
      | none => simp [firstCellMatches]
      | some s =>
        have hsne : s ≠ h0 := fun hh => hhead (by simp [hh])
        simp [firstCellMatches, hsne]
  refine ⟨?_, hkeep, ?_⟩
  · intro hhead hmem
    rw [clean_dataframe, if_neg hne] at hmem
    have h1 := (List.mem_filter.1 (List.mem_filter.1 hmem).1).2
    cases r with
    | nil => simp at hhead
    | cons c rest =>
      have hc : c = some h0 := by simpa using hhead
      subst hc
      simp [firstCellMatches] at h1
  · intro hhead hdrop
    exact hkeep hhead
      (List.any_eq_true.2 ⟨some h0, List.mem_of_mem_drop hdrop, rfl⟩)

/-- Witness for C6: a record carrying the header text `"A"` in its second
column (but not its first) survives cleaning. -/
theorem C6_header_drop_witness :
    [some "x", some "A"] ∈ clean_dataframe [[some "x", some "A"]] ["A", "B"] :=
  (C6_header_drop [[some "x", some "A"]] "A" ["B"] [some "x", some "A"]
      (by decide)).2.2 (by decide) (by decide)

/-- C7: `clean_dataframe` is idempotent — cleaning a cleaned table changes
nothing. -/
theorem C7_clean_idempotent (df : Table) (expected_headers : List String) :
    clean_dataframe (clean_dataframe df expected_headers) expected_headers =
      clean_dataframe df expected_headers := by
  by_cases h : df.isEmpty
  · have hdf : df = [] := List.isEmpty_iff.1 h
    subst hdf
    simp [clean_dataframe]
  · have hc : clean_dataframe df expected_headers =
        (df.filter fun r => !(firstCellMatches r expected_headers)).filter
          (fun r => r.any fun c => c.isSome) := by
      rw [clean_dataframe, if_neg h]
    rw [hc]
    by_cases h2 : ((df.filter fun r => !(firstCellMatches r expected_headers)).filter
        (fun r => r.any fun c => c.isSome)).isEmpty
    · have h3 := List.isEmpty_iff.1 h2
      rw [h3]
      simp [clean_dataframe]
    · rw [clean_dataframe, if_neg h2]
      exact filter_pair_idem _ _ df

/-- C3: with `pages = 'all'` and both bounds supplied, the resolved indices
are exactly `max(start-1, 0) .. min(end, T) - 1`, in ascending order; a
start exceeding the end after clipping resolves to the empty list (no
error); and `(start = 2, end = 5)` on a 3-page document resolves to
`[1, 2]`. -/
theorem C3_range_resolution :
    ∀ (T : Nat) (s e : Int),
      (∀ i : Nat, i ∈ resolvePages .all (some s) (some e) T ↔
          max (s - 1) 0 ≤ (i : Int) ∧ (i : Int) < min e (T : Int))
      ∧ List.Sorted (· < ·) (resolvePages .all (some s) (some e) T)
      ∧ resolvePages .all (some 2) (some 5) 3 = [1, 2] := by
  intro T s e
  refine ⟨?_, ?_, by decide⟩
  · intro i
    simp only [resolvePages]
    rw [List.mem_range'_1]
    omega
  · simp only [resolvePages]
    exact List.pairwise_lt_range' _ _

/-- C4: an explicit page list keeps exactly the in-range values `p` (with
`1 <= p <= T`) converted to `p - 1`, preserving the caller's order and
multiplicity (the resolution is the evident `filterMap`); every resolved
index is below `T`; and `[5, 1, 5]` on a 4-page document resolves to
`[0]`. -/
theorem C4_list_resolution :
    ∀ (T : Nat) (ps : List Int) (sp ep : Option Int),
      (∀ i ∈ resolvePages (.list ps) sp ep T, i < T)
      ∧ resolvePages (.list ps) sp ep T =
          ps.filterMap (fun p => if 0 < p ∧ p ≤ (T : Int)
            then some (p - 1).toNat else none)
      ∧ (∀ i : Nat, (resolvePages (.list ps) sp ep T).count i =
          if (i : Int) < (T : Int) then ps.count ((i : Int) + 1) else 0)
      ∧ resolvePages (.list [5, 1, 5]) sp ep 4 = [0] := by
  intro T ps sp ep
  have hmain : resolvePages (.list ps) sp ep T =
      ps.filterMap (fun p => if 0 < p ∧ p ≤ (T : Int)
        then some (p - 1).toNat else none) := by
    simp only [resolvePages]
    induction ps with
    | nil => rfl
    | cons p rest ih =>
      simp only [List.filter_cons, List.filterMap_cons]
      by_cases h : 0 < p ∧ p ≤ (T : Int)
      · have hb : (decide (0 < p) && decide (p ≤ (T : Int))) = true := by
          simp [h.1, h.2]
        rw [if_pos h, hb, if_pos rfl, List.map_cons, ih]
      · have hb : (decide (0 < p) && decide (p ≤ (T : Int))) = false := by
          rcases not_and_or.1 h with h1 | h1 <;> simp [h1]
        rw [if_neg h, hb, if_neg Bool.false_ne_true, ih]
  refine ⟨?_, hmain, ?_, rfl⟩
  · intro i hi
    rw [hmain] at hi
    obtain ⟨p, _, hpi⟩ := List.mem_filterMap.1 hi
    by_cases hp : 0 < p ∧ p ≤ (T : Int)
    · rw [if_pos hp] at hpi
      have h2 := Option.some.inj hpi
      omega
    · rw [if_neg hp] at hpi
      cases hpi
  · intro i
    rw [hmain, List.count_filterMap]
    by_cases hiT : (i : Int) < (T : Int)
    · rw [if_pos hiT, List.count_eq_countP]
      apply List.countP_congr
      intro p _
      by_cases hp : 0 < p ∧ p ≤ (T : Int)
      · simp only [if_pos hp, beq_iff_eq, Option.some.injEq]
        omega
      · rw [if_neg hp]
        simp only [beq_iff_eq]
        constructor
        · intro hh
          cases hh
        · intro hh
          omega
    · rw [if_neg hiT]
      refine List.countP_eq_zero.2 ?_
      intro p _
      by_cases hp : 0 < p ∧ p ≤ (T : Int)
      · simp only [if_pos hp, beq_iff_eq, Option.some.injEq]
        omega
      · rw [if_neg hp]
        simp

/-- Witness for C4: index 0 (from page number 1 of `[5, 1, 5]`, document of
4 pages) is in range. -/
theorem C4_list_resolution_witness : (0 : Nat) < 4 :=
  (C4_list_resolution 4 [5, 1, 5] none none).1 0 (by decide)

/-- C8: a page with zero tokens makes the extractor return `None` (a
"no result" distinct from a zero-row table); on that result the pipeline
tries the Camelot fallback, and when the fallback also yields nothing the
page contributes zero tables while the remaining pages are processed
unchanged. -/
theorem C8_empty_page_fallback (column_positions : List ℚ)
    (expected_headers : List String) (pd : PageData)
    (hw : pd.words = .ok []) :
    extractPage column_positions expected_headers [] = none
    ∧ extractPageSafe pd column_positions expected_headers = none
    ∧ processPage pd column_positions expected_headers =
        camelotFallback pd expected_headers
    ∧ (pd.camelotTables = .ok [] →
        processPage pd column_positions expected_headers = [])
    ∧ (∀ (pdfPages : List PageData) (l1 l2 : List Nat) (i : Nat),
        pdfPages[i]? = some pd → pd.camelotTables = .ok [] →
        gatherTables pdfPages column_positions expected_headers (l1 ++ i :: l2) =
          gatherTables pdfPages column_positions expected_headers (l1 ++ l2)) := by
  have h1 : extractPage column_positions expected_headers [] = none := rfl
  have h2 : extractPageSafe pd column_positions expected_headers = none := by
    simp only [extractPageSafe, hw]
    exact h1
  have h3 : processPage pd column_positions expected_headers =
      camelotFallback pd expected_headers := by
    simp [processPage, h2, pdfplumberAccepted]
  have h4 : pd.camelotTables = .ok [] →
      processPage pd column_positions expected_headers = [] := by
    intro hc
    rw [h3]
    simp [camelotFallback, hc]
  refine ⟨h1, h2, h3, h4, ?_⟩
  intro pdfPages l1 l2 i hpi hc
  simp [gatherTables, hpi, h4 hc]

/-- The per-page data of a blank page: no word tokens, no fallback tables. -/
def emptyPage : PageData := { words := .ok [], camelotTables := .ok [] }

/-- Witness for C8 on a one-page document whose page is blank. -/
theorem C8_empty_page_fallback_witness :
    processPage emptyPage columnPositions expectedHeaders = []
    ∧ gatherTables [emptyPage] columnPositions expectedHeaders ([] ++ 0 :: []) =
        gatherTables [emptyPage] columnPositions expectedHeaders ([] ++ []) :=
  ⟨(C8_empty_page_fallback columnPositions expectedHeaders emptyPage rfl).2.2.2.1
      rfl,
   (C8_empty_page_fallback columnPositions expectedHeaders emptyPage
      rfl).2.2.2.2 [emptyPage] [] [] 0 rfl rfl⟩

/-- C10: `process_pdf` returns `None` both on the fatal path (an exception
while opening or processing the document) and on the empty-result path
(processing finished but nothing was accumulated): the return value alone
does not separate the two conditions. -/
theorem C10_none_ambiguous (pages : PageSel) (sp ep : Option Int)
    (column_positions : List ℚ) (expected_headers : List String) :
    processPdf none pages sp ep column_positions expected_headers = none
    ∧ (∀ pdfPages : List PageData,
        gatherTables pdfPages column_positions expected_headers
            (resolvePages pages sp ep pdfPages.length) = [] →
        processPdf (some pdfPages) pages sp ep column_positions
            expected_headers = none) := by
  refine ⟨rfl, ?_⟩
  intro pdfPages hg
  simp [processPdf, hg]

/-- Witness for C10: a failed open and an empty zero-page document both
produce `none`. -/
theorem C10_none_ambiguous_witness :
    processPdf none .all none none columnPositions expectedHeaders = none
    ∧ processPdf (some []) .all none none columnPositions expectedHeaders =
        none :=
  ⟨(C10_none_ambiguous .all none none columnPositions expectedHeaders).1,
   (C10_none_ambiguous .all none none columnPositions expectedHeaders).2 [] rfl⟩

/-- C9: on a page all of whose tokens sit strictly left of the first column
boundary, the extractor returns a non-`None`, non-empty DataFrame with one
row per distinct RowKey whose cells are all empty strings (row buckets are
created before column matching, and `dropna` keeps all-empty-string rows),
so the pipeline's acceptance test passes and Camelot is not tried. -/
theorem C9_below_first_boundary (c0 : ℚ) (ctl : List ℚ) (h0 : String)
    (hs : List String) (words : List Word)
    (hsort : (c0 :: ctl).Chain' (· < ·))
    (hh0 : h0 ≠ "")
    (hwords : words ≠ [])
    (hbelow : ∀ w ∈ words, w.x0 < c0) :
    ∃ d, extractPage (c0 :: ctl) (h0 :: hs) words = some d
      ∧ d ≠ []
      ∧ d.length = ((words.map fun w => rowKey w.top).dedup).length
      ∧ (∀ r ∈ d, ∀ c ∈ r, c = some "")
      ∧ pdfplumberAccepted (extractPage (c0 :: ctl) (h0 :: hs) words) = true := by
  have hnone : ∀ w ∈ words, findCol w.x0 (c0 :: ctl) = none := by
    intro w hw
    apply findColAux_none_of_lt
    intro p hp
    rcases List.mem_cons.1 hp with rfl | hp2
    · exact hbelow w hw
    · have hlt : c0 < p :=
        (List.pairwise_cons.1 (List.chain'_iff_pairwise.1 hsort)).1 p hp2
      exact lt_trans (hbelow w hw) hlt
  have hbuild : buildRows (h0 :: hs) (c0 :: ctl) words =
      (newKeys [] (words.map fun w => rowKey w.top)).map
        (fun k => (k, List.replicate (h0 :: hs).length [])) := by
    have hb := buildRows_all_none (h0 :: hs) (c0 :: ctl) words [] hnone
    simpa [buildRows] using hb
  have hkeys : (buildRows (h0 :: hs) (c0 :: ctl) words).map (·.1) =
      newKeys [] (words.map fun w => rowKey w.top) := by
    rw [hbuild, List.map_map]
    exact List.map_id _
  have hlookup : ∀ k ∈ List.insertionSort (· ≤ ·)
      ((buildRows (h0 :: hs) (c0 :: ctl) words).map (·.1)),
      lookupRow (buildRows (h0 :: hs) (c0 :: ctl) words) k =
        some (List.replicate (h0 :: hs).length []) := by
    intro k hk
    rw [hkeys] at hk
    have hk2 : k ∈ newKeys [] (words.map fun w => rowKey w.top) :=
      (List.perm_insertionSort (· ≤ ·) _).mem_iff.1 hk
    rw [hbuild, lookupRow_map_const, if_pos hk2]
  have hdataRows : pageDataRows (c0 :: ctl) (h0 :: hs) words =
      List.replicate (newKeys [] (words.map fun w => rowKey w.top)).length
        (List.replicate (h0 :: hs).length "") := by
    simp only [pageDataRows]
    have hmapped : ∀ k ∈ List.insertionSort (· ≤ ·)
        ((buildRows (h0 :: hs) (c0 :: ctl) words).map (·.1)),
        ((lookupRow (buildRows (h0 :: hs) (c0 :: ctl) words) k).getD []).map
            (fun cell => strip (joinSpace cell)) =
          List.replicate (h0 :: hs).length "" := by
      intro k hk
      rw [hlookup k hk]
      simp only [Option.getD_some, List.map_replicate]
      rfl
    rw [List.map_congr_left hmapped, List.map_const',
      List.length_insertionSort, hkeys]
  have hKL_ne : newKeys [] (words.map fun w => rowKey w.top) ≠ [] := by
    cases words with
    | nil => exact absurd rfl hwords
    | cons w ws => simp [newKeys]
  have hlen_pos : 0 < (newKeys [] (words.map fun w => rowKey w.top)).length :=
    List.length_pos.2 hKL_ne
  have hcrow : (List.replicate (h0 :: hs).length "").map
      (some : String → Cell) =
      some "" :: List.replicate hs.length (some "") := by
    rw [List.map_replicate]
    rfl
  have hfirst : firstCellMatches
      (some "" :: List.replicate hs.length (some "")) (h0 :: hs) = false := by
    have hne : ("" == h0) = false := by
      simp [Ne.symm hh0]
    simp [firstCellMatches, hne]
  have hclean : clean_dataframe
      (List.replicate (newKeys [] (words.map fun w => rowKey w.top)).length
        (some "" :: List.replicate hs.length (some ""))) (h0 :: hs) =
      List.replicate (newKeys [] (words.map fun w => rowKey w.top)).length
        (some "" :: List.replicate hs.length (some "")) := by
    have hne2 : ¬(List.replicate
        (newKeys [] (words.map fun w => rowKey w.top)).length
        (some "" :: List.replicate hs.length (some ""))).isEmpty = true := by
      simp only [List.isEmpty_iff, List.replicate_eq_nil_iff]
      omega
    rw [clean_dataframe, if_neg hne2]
    have hf1 : (List.replicate
        (newKeys [] (words.map fun w => rowKey w.top)).length
        (some "" :: List.replicate hs.length (some ""))).filter
          (fun r => !(firstCellMatches r (h0 :: hs))) =
        List.replicate (newKeys [] (words.map fun w => rowKey w.top)).length
          (some "" :: List.replicate hs.length (some "")) := by
      refine List.filter_eq_self.2 ?_
      intro r hr
      rw [List.eq_of_mem_replicate hr, hfirst]
      rfl
    rw [hf1]
    refine List.filter_eq_self.2 ?_
    intro r hr
    rw [List.eq_of_mem_replicate hr]
    simp
  have hextract : extractPage (c0 :: ctl) (h0 :: hs) words =
      some (List.replicate
        (newKeys [] (words.map fun w => rowKey w.top)).length
        (some "" :: List.replicate hs.length (some ""))) := by
    have hne3 : ¬(pageDataRows (c0 :: ctl) (h0 :: hs) words).isEmpty = true := by
      rw [hdataRows]
      simp only [List.isEmpty_iff, List.replicate_eq_nil_iff]
      omega
    rw [extractPage]
    rw [if_neg hne3, hdataRows, List.map_replicate, hcrow, hclean]
  refine ⟨_, hextract, ?_, ?_, ?_, ?_⟩
  · simp only [ne_eq, List.replicate_eq_nil_iff]
    omega
  · rw [List.length_replicate, newKeys_nil_length]
  · intro r hr
    rw [List.eq_of_mem_replicate hr]
    intro c hc
    rcases List.mem_cons.1 hc with rfl | hc2
    · rfl
    · exact List.eq_of_mem_replicate hc2
  · rw [hextract]
    simp only [pdfplumberAccepted, Bool.not_eq_true', List.isEmpty_eq_false,
      ne_eq, List.replicate_eq_nil_iff]
    omega

/-- Witness for C9: one token at `x0 = 10 < 37.5` on the source's schema. -/
theorem C9_below_first_boundary_witness :
    ∃ d, extractPage columnPositions expectedHeaders
        [{ text := "a", x0 := 10, top := 100 }] = some d
      ∧ d ≠ []
      ∧ d.length = (([{ text := "a", x0 := 10, top := 100 }].map
          fun w : Word => rowKey w.top).dedup).length
      ∧ (∀ r ∈ d, ∀ c ∈ r, c = some "")
      ∧ pdfplumberAccepted (extractPage columnPositions expectedHeaders
          [{ text := "a", x0 := 10, top := 100 }]) = true :=
  C9_below_first_boundary _ _ _ _ _ columnPositions_sorted (by decide)
    (List.cons_ne_nil _ _)
    (by
      intro w hw
      rw [List.mem_singleton] at hw
      subst hw
      decide)

end PDFCon
